import Mathlib

/-!
Verification of the CDOE feedback analytics pipeline (src/app.py).

The pandas/streamlit program is shallowly embedded: a table is an ordered
list of column names together with rows of cells; a cell is missing, text,
or a rational number (pandas NaN is modelled as `Cell.missing`, a float as
a rational).  String normalisation (`str.strip`, `str.lower`), substring
containment (`in`), numeric coercion (`pd.to_numeric(errors="coerce")`),
and the aggregations of the five dashboard tabs are translated below,
each definition following the corresponding lines of src/app.py.
-/

namespace CDOE

/-- Lower-case one ASCII character, as Python str.lower does on ASCII. -/
def charLower (c : Char) : Char :=
  if 65 ≤ c.toNat ∧ c.toNat ≤ 90 then Char.ofNat (c.toNat + 32) else c

/-- Python str.lower, modelled characterwise. -/
def strLower (s : String) : String := String.mk (s.data.map charLower)

/-- Whitespace recognised by Python str.strip. -/
def isSpace (c : Char) : Bool := c.toNat = 32 ∨ c.toNat = 9 ∨ c.toNat = 10 ∨ c.toNat = 13

/-- Python str.strip: drop whitespace at both ends. -/
def strTrim (s : String) : String :=
  String.mk (((s.data.dropWhile isSpace).reverse.dropWhile isSpace).reverse)

/-- Python substring containment p in s. -/
def substrB (p s : String) : Bool := s.data.tails.any (fun t => p.data.isPrefixOf t)

/-- Numeric value of an ASCII digit character. -/
def digit? (c : Char) : Option ℕ :=
  if 48 ≤ c.toNat ∧ c.toNat ≤ 57 then some (c.toNat - 48) else none

/-- Accumulate a digit string into a natural number; none on a non-digit
or on the empty string. -/
def digitsVal : List Char → Option ℕ → Option ℕ
  | [], acc => acc
  | c :: cs, acc =>
    match digit? c with
    | none => none
    | some d => digitsVal cs (some ((acc.getD 0) * 10 + d))

/-- Parse an optionally signed decimal numeral (integer part, optional
fractional part) to a rational, the shape of literal pandas accepts via
pd.to_numeric; anything else is none. -/
def parseRat? (s : String) : Option ℚ :=
  let core : List Char → Option ℚ := fun cs =>
    match cs.splitOn '.' with
    | [w] => (digitsVal w none).map (fun n => (n : ℚ))
    | [w, f] =>
      match digitsVal w none, digitsVal f none with
      | some n, some m => some ((n : ℚ) + (m : ℚ) / ((10 : ℚ) ^ f.length))
      | _, _ => none
    | _ => none
  match s.data with
  | '-' :: cs => (core cs).map (fun q => -q)
  | cs => core cs

/-- One cell of a table: absent (pandas NaN), text, or numeric. -/
inductive Cell where
  | missing
  | text (s : String)
  | num (q : ℚ)
deriving DecidableEq

/-- safe_num of src/app.py line 20: pd.to_numeric(s, errors="coerce"),
per cell.  A missing cell stays missing, a numeric cell is kept, a text
cell is parsed as a numeral (surrounding whitespace tolerated) and maps
to none when it does not parse. -/
def safe_num : Cell → Option ℚ
  | .missing => none
  | .text s => parseRat? (strTrim s)
  | .num q => some q

/-- A table: ordered column names and rows of cells (a pandas DataFrame). -/
structure Table where
  cols : List String
  rows : List (List Cell)
deriving DecidableEq

/-- First position of a column name in a header, as pandas get_loc /
column indexing resolves a label (first match). -/
def colIdx? : List String → String → Option ℕ
  | [], _ => none
  | c :: cs, d => if c = d then some 0 else (colIdx? cs d).map (· + 1)

/-- The cell of a row under a column label; missing when the label is
absent or the row is too short. -/
def readCell (cols : List String) (row : List Cell) (c : String) : Cell :=
  match colIdx? cols c with
  | some i => row.getD i Cell.missing
  | none => Cell.missing

/-- The column of a table as a list of cells, one per row (filtered[c]). -/
def getCol (t : Table) (c : String) : List Cell :=
  t.rows.map (fun r => readCell t.cols r c)

/-- safe_num(filtered[c]) with the NaN entries dropped: the coercible
numeric values of a column. -/
def numVals (t : Table) (c : String) : List ℚ :=
  (getCol t c).filterMap safe_num

/-- safe_num(filtered[c]).notna().sum() > 0 of src/app.py lines 183 and 216. -/
def hasNumeric (t : Table) (c : String) : Bool :=
  decide (0 < (numVals t c).length)

/-- The pandas mean: the arithmetic mean of the present values, NaN
(modelled none) when there are none. -/
def listMean (l : List ℚ) : Option ℚ :=
  if l.isEmpty then none else some (l.sum / l.length)

/-- Python round(x, 2) (the half-point convention is immaterial to every
statement below). -/
def round2 (q : ℚ) : ℚ := ((round (q * 100) : ℤ) : ℚ) / 100

/-- detect_mode of src/app.py lines 55 to 63: lower-case the file name and
test the keywords in a fixed order. -/
def detect_mode (x : String) : String :=
  let y := strLower x
  if substrB "distance" y then "Distance"
  else if substrB "dtl" y then "DTL"
  else if substrB "online" y then "Online"
  else "Unknown"

/-- Columns whose identifier contains rate or rating, src/app.py line 98. -/
def rating_cols (t : Table) : List String :=
  t.cols.filter (fun c => substrB "rate" c || substrB "rating" c)

/-- filtered[rating_cols].apply(safe_num).stack() of src/app.py lines
100 to 104: every coercible value of every rating column, flattened in
row-major order as stack does. -/
def stackedRatings (t : Table) : List ℚ :=
  t.rows.flatMap (fun r => (rating_cols t).filterMap (fun c => safe_num (readCell t.cols r c)))

/-- overall_avg of src/app.py lines 100 to 105. -/
def overall_avg (t : Table) : Option ℚ :=
  listMean (stackedRatings t)

/-- len(filtered), the Total Responses metric of src/app.py line 108. -/
def total_responses (t : Table) : ℕ := t.rows.length

/-- The value pool exactly as the specification words it: per rating
column, the coercible values of the whole filtered table, flattened
column by column. -/
def pooledRatings (t : Table) : List ℚ :=
  (rating_cols t).flatMap (fun c => numVals t c)

/-- The string a pandas cell shows after dropna().astype(str), and the
string a groupby key carries: none for a missing cell, the text itself,
or the printed numeral. -/
def cellStr? : Cell → Option String
  | .missing => none
  | .text s => some s
  | .num q => some (toString q)

/-- Ascending insertion of a string into a sorted list (lexicographic
order on character codes, the order pandas sorts group keys by). -/
def strLeB (a b : String) : Bool :=
  List.isPrefixOf a.data b.data ∨ (a.data.map Char.toNat) < (b.data.map Char.toNat)

/-- Insert a string into an ascending list. -/
def insertAsc (x : String) : List String → List String
  | [] => [x]
  | y :: ys => if strLeB x y then x :: y :: ys else y :: insertAsc x ys

/-- Sort strings ascending (insertion sort). -/
def sortStr (l : List String) : List String := l.foldr insertAsc []

/-- The group keys of groupby("source_file"): the distinct non-missing
values of the source_file column, in ascending order (pandas sorts group
keys). -/
def groupKeys (t : Table) : List String :=
  sortStr (((getCol t "source_file").filterMap cellStr?).dedup)

/-- The rows of one groupby("source_file") group. -/
def groupRows (t : Table) (k : String) : List (List Cell) :=
  t.rows.filter (fun r => decide (cellStr? (readCell t.cols r "source_file") = some k))

/-- The coercible values of column c inside one group: the val column of
src/app.py line 124 restricted to the group. -/
def groupVals (t : Table) (c : String) (k : String) : List ℚ :=
  (groupRows t k).filterMap (fun r => safe_num (readCell t.cols r c))

/-- The file-wise table of src/app.py lines 122 to 127: group by
source_file and take the mean of safe_num of the designated column. -/
def per_file_avg (t : Table) (c : String) : List (String × Option ℚ) :=
  (groupKeys t).map (fun k => (k, listMean (groupVals t c k)))

/-- The series of src/app.py lines 148 to 153: restrict to rows whose
mode is Distance, take the designated text column, drop missing values,
convert to text and strip whitespace. -/
def lscValues (t : Table) : List String :=
  (t.rows.filter (fun r => decide (readCell t.cols r "mode" = Cell.text "Distance"))).filterMap
    (fun r => (cellStr? (readCell t.cols r "learner support centre")).map strTrim)

/-- Insert a (value, count) pair into a list sorted by descending count. -/
def insertDesc (x : String × ℕ) : List (String × ℕ) → List (String × ℕ)
  | [] => [x]
  | y :: ys => if y.2 < x.2 then x :: y :: ys else y :: insertDesc x ys

/-- Sort (value, count) pairs by descending count (insertion sort). -/
def sortDesc (l : List (String × ℕ)) : List (String × ℕ) := l.foldr insertDesc []

/-- value_counts of src/app.py line 158: each distinct value with its
number of occurrences, ordered by descending count. -/
def value_counts (l : List String) : List (String × ℕ) :=
  sortDesc (l.dedup.map (fun v => (v, l.count v)))

/-- The keyword list of src/app.py lines 178 to 181. -/
def param_keywords : List String :=
  ["ease", "admission", "support", "syllabus", "curriculum", "self-learning", "quality"]

/-- any(k in c for k in param_keywords). -/
def kwMatch (c : String) : Bool := param_keywords.any (fun k => substrB k c)

/-- The Master Dashboard rows of src/app.py lines 176 to 187: every
column whose name matches a keyword and that has at least one coercible
value, paired with the rounded mean of its coercible values. -/
def params (t : Table) : List (String × Option ℚ) :=
  (t.cols.filter (fun c => kwMatch c && hasNumeric t c)).map
    (fun c => (c, (listMean (numVals t c)).map round2))

/-- The anchor column of src/app.py lines 117 and 205: the first column
whose name contains delivery of lecture. -/
def anchorCol (t : Table) : Option String :=
  t.cols.find? (fun c => substrB "delivery of lecture" c)

/-- filtered.columns[start_idx:] of src/app.py lines 211 and 212: the
columns strictly after the anchor position. -/
def tailCols (t : Table) (sec : String) : List String :=
  match colIdx? t.cols sec with
  | some i => t.cols.drop (i + 1)
  | none => []

/-- The scan of src/app.py lines 214 to 219: keep appending columns that
have a coercible value and break at the first one that has none. -/
def subjectScan (t : Table) : List String → List String
  | [] => []
  | c :: rest => if hasNumeric t c then c :: subjectScan t rest else []

/-- subject_cols of src/app.py lines 211 to 219. -/
def subject_cols (t : Table) (sec : String) : List String :=
  subjectScan t (tailCols t sec)

/-- filtered[c].dropna().astype(str).iloc[0] of src/app.py lines 227 to
232, with iloc[0] modelled as head?. -/
def subjectName (t : Table) (c : String) : Option String :=
  ((getCol t c).filterMap cellStr?).head?

/-- The outcome of the subject-wise tab: one of its two st.error/st.stop
exits, or the computed rows. -/
inductive SubjOutcome where
  | missingAnchor
  | emptyBlock
  | ok (rs : List (String × Option ℚ))
deriving DecidableEq

/-- The subject-wise tab of src/app.py lines 205 to 239: stop with an
error when the anchor is missing or the detected block is empty,
otherwise emit one row per detected column with its display name and the
rounded mean of its coercible values. -/
def subjectSection (t : Table) : SubjOutcome :=
  match anchorCol t with
  | none => SubjOutcome.missingAnchor
  | some sec =>
    if (subject_cols t sec).isEmpty then SubjOutcome.emptyBlock
    else SubjOutcome.ok ((subject_cols t sec).map (fun c =>
      ((subjectName t c).getD "", (listMean (numVals t c)).map round2)))

/-- One uploaded file: its name and its parsed tabular content. -/
structure SourceFile where
  name : String
  header : List String
  rows : List (List Cell)
deriving DecidableEq

/-- df.columns.astype(str).str.strip().str.lower() of src/app.py line 45. -/
def normCols (h : List String) : List String :=
  h.map (fun c => strLower (strTrim c))

/-- df[c] = v for a scalar v: overwrite the column in place when the
label exists, otherwise append it at the end. -/
def setCol (t : Table) (c : String) (v : Cell) : Table :=
  match colIdx? t.cols c with
  | some i => ⟨t.cols, t.rows.map (fun r => r.set i v)⟩
  | none => ⟨t.cols ++ [c], t.rows.map (fun r => r ++ [v])⟩

/-- Loading one file, src/app.py lines 40 to 47: normalise the header
and tag every row with the file name in a source_file column. -/
def loadOne (f : SourceFile) : Table :=
  setCol ⟨normCols f.header, f.rows⟩ "source_file" (Cell.text f.name)

/-- The column union pd.concat builds: the first frame's columns, then
every not yet seen column of the later frames, in order of appearance. -/
def unionCols (ls : List (List String)) : List String :=
  ls.foldl (fun acc cs => acc ++ cs.filter (fun c => decide (c ∉ acc))) []

/-- Reindex one row to the unified header: the cell under each unified
label, missing when the source lacks the label. -/
def reindexRow (src : List String) (uc : List String) (row : List Cell) : List Cell :=
  uc.map (fun c => readCell src row c)

/-- pd.concat(dfs, ignore_index=True) of src/app.py line 49. -/
def concatTables (ts : List Table) : Table :=
  let uc := unionCols (ts.map (fun t => t.cols))
  ⟨uc, ts.flatMap (fun t => t.rows.map (reindexRow t.cols uc))⟩

/-- The whole load of src/app.py lines 38 to 49. -/
def loadData (fs : List SourceFile) : Table :=
  concatTables (fs.map loadOne)

/-! ### Helper lemmas -/

/-- The break-terminated loop of lines 214 to 219 is a takeWhile. -/
lemma subjectScan_eq_takeWhile (t : Table) :
    ∀ l : List String, subjectScan t l = l.takeWhile (fun c => hasNumeric t c) := by
  intro l
  induction l with
  | nil => rfl
  | cons c rest ih =>
    by_cases h : hasNumeric t c
    · simp [subjectScan, h, List.takeWhile_cons, ih]
    · simp [subjectScan, h, List.takeWhile_cons]

/-- A column kept by the subject scan has a coercible value. -/
lemma hasNumeric_of_mem_subject_cols {t : Table} {sec c : String}
    (h : c ∈ subject_cols t sec) : hasNumeric t c = true := by
  rw [subject_cols, subjectScan_eq_takeWhile] at h
  exact List.mem_takeWhile_imp h

/-- A cell that coerces numerically is not missing, hence shows a string. -/
lemma cellStr_isSome_of_safe_num {cell : Cell} {q : ℚ}
    (h : safe_num cell = some q) : (cellStr? cell).isSome = true := by
  cases cell <;> simp_all [safe_num, cellStr?]

/-- A nonempty value list makes the mean defined. -/
lemma listMean_isSome {l : List ℚ} (h : l ≠ []) : (listMean l).isSome = true := by
  simp [listMean, List.isEmpty_iff, h]

/-! ### Example tables -/

/-- Example for the subject-block scan: anchor, two numeric columns, a
non-numeric column, then a numeric column again. -/
def tableC1 : Table :=
  ⟨["delivery of lecture", "b", "c", "d", "e"],
   [[Cell.text "lect", Cell.num 4, Cell.num 5, Cell.text "x", Cell.num 3],
    [Cell.missing, Cell.num 3, Cell.missing, Cell.text "y", Cell.num 4]]⟩

/-! ### Claims -/

/-- Claim C1: the subject-block scan keeps exactly the columns of the
maximal prefix of the post-anchor columns in which every column has a
coercible value (a takeWhile), and on columns [anchor, B numeric,
C numeric, D non-numeric, E numeric] it detects exactly [B, C], never E. -/
theorem spec_C1 :
    (∀ (t : Table) (l : List String),
      subjectScan t l = l.takeWhile (fun c => hasNumeric t c))
    ∧ subject_cols tableC1 "delivery of lecture" = ["b", "c"]
    ∧ (subject_cols tableC1 "delivery of lecture").contains "e" = false :=
  ⟨subjectScan_eq_takeWhile, by decide, by decide⟩

/-- Claim C2: mode detection is a total deterministic function into
{Distance, DTL, Online, Unknown}; the keywords are tested in the order
distance, dtl, online on the case-folded origin and the first match
wins, so an origin containing distance is always classified Distance. -/
theorem spec_C2 : ∀ x : String,
    (detect_mode x = "Distance" ∨ detect_mode x = "DTL" ∨
     detect_mode x = "Online" ∨ detect_mode x = "Unknown")
    ∧ (substrB "distance" (strLower x) = true → detect_mode x = "Distance")
    ∧ (substrB "distance" (strLower x) = false → substrB "dtl" (strLower x) = true →
        detect_mode x = "DTL")
    ∧ (substrB "distance" (strLower x) = false → substrB "dtl" (strLower x) = false →
        substrB "online" (strLower x) = true → detect_mode x = "Online")
    ∧ (substrB "distance" (strLower x) = false → substrB "dtl" (strLower x) = false →
        substrB "online" (strLower x) = false → detect_mode x = "Unknown") := by
  intro x
  simp only [detect_mode]
  split_ifs with h1 h2 h3 <;> simp_all

/-- Claim C2 witness: a file name containing both distance and dtl is
classified Distance. -/
theorem spec_C2_witness : detect_mode "Distance_DTL_2025.csv" = "Distance" :=
  (spec_C2 "Distance_DTL_2025.csv").2.1 (by decide)

/-- Membership in the Master Dashboard parameter list, characterised. -/
lemma mem_params_iff (t : Table) (c : String) :
    c ∈ (params t).map Prod.fst ↔
      c ∈ t.cols ∧ kwMatch c = true ∧ hasNumeric t c = true := by
  simp [params, List.map_map, Function.comp_def, List.mem_filter, Bool.and_eq_true]

/-- Example for parameter classification: a keyword column with a
numeric value and a keyword column with none. -/
def tableC5 : Table :=
  ⟨["support quality", "ease of admission", "name"],
   [[Cell.num 4, Cell.text "none", Cell.text "p"]]⟩

/-- Claim C5: a column is reported on the Master Dashboard iff its name
contains one of the parameter keywords and at least one of its values
coerces numerically; a name-matched column with zero coercible values
is excluded, as the example table shows. -/
theorem spec_C5 :
    (∀ (t : Table) (c : String),
      c ∈ (params t).map Prod.fst ↔
        c ∈ t.cols ∧ kwMatch c = true ∧ hasNumeric t c = true)
    ∧ (params tableC5).map Prod.fst = ["support quality"]
    ∧ kwMatch "ease of admission" = true
    ∧ hasNumeric tableC5 "ease of admission" = false :=
  ⟨mem_params_iff, by decide, by decide, by decide⟩

/-- Claim C5 witness: the characterisation instantiated on the example. -/
theorem spec_C5_witness : "support quality" ∈ (params tableC5).map Prod.fst :=
  (spec_C5.1 tableC5 "support quality").mpr (by decide)

/-- A column with a coercible value has a non-missing cell, so its
display-name lookup succeeds. -/
lemma subjectName_isSome_of_hasNumeric {t : Table} {c : String}
    (h : hasNumeric t c = true) : (subjectName t c).isSome = true := by
  rw [hasNumeric, decide_eq_true_iff, List.length_pos] at h
  rw [subjectName, Option.isSome_iff_ne_none, ne_eq, List.head?_eq_none_iff]
  intro hnil
  rw [List.filterMap_eq_nil_iff] at hnil
  apply h
  rw [numVals, List.filterMap_eq_nil_iff]
  intro cell hcell
  cases hq : safe_num cell with
  | none => rfl
  | some q =>
    have := cellStr_isSome_of_safe_num hq
    have h2 := hnil cell hcell
    simp [h2] at this

/-- Example for the display-name safety claim. -/
def tableC9 : Table :=
  ⟨["delivery of lecture", "b", "c"],
   [[Cell.text "lect", Cell.num 4, Cell.text "x"],
    [Cell.missing, Cell.num 3, Cell.text "y"]]⟩

/-- Claim C9: every column included in the Subject Block has at least
one coercible, hence non-missing, value, so taking the first entry of
the column after dropping missing values always succeeds. -/
theorem spec_C9 : ∀ (t : Table) (sec c : String),
    c ∈ subject_cols t sec → (subjectName t c).isSome = true :=
  fun _ _ _ h => subjectName_isSome_of_hasNumeric (hasNumeric_of_mem_subject_cols h)

/-- Claim C9 witness: on the example table the included column b has a
defined display name. -/
theorem spec_C9_witness : (subjectName tableC9 "b").isSome = true :=
  spec_C9 tableC9 "delivery of lecture" "b" (by decide)

/-- A column with a coercible value has a defined (rounded) mean. -/
lemma mean_isSome_of_hasNumeric {t : Table} {c : String}
    (h : hasNumeric t c = true) :
    ((listMean (numVals t c)).map round2).isSome = true := by
  rw [hasNumeric, decide_eq_true_iff, List.length_pos] at h
  have hs := listMean_isSome h
  cases hm : listMean (numVals t c) with
  | none => rw [hm] at hs; simp at hs
  | some q => simp [hm]

/-- Example for the defined-average invariant. -/
def tableC10 : Table := ⟨["ease of use"], [[Cell.num 4]]⟩

/-- Claim C10: every row emitted by the Master Dashboard and by the
subject-wise aggregator carries a defined average, never the missing
sentinel, because a column enters either result only with at least one
coercible value. -/
theorem spec_C10 : ∀ t : Table,
    (∀ p ∈ params t, p.2.isSome = true)
    ∧ (∀ rs, subjectSection t = SubjOutcome.ok rs →
        ∀ r ∈ rs, r.2.isSome = true) := by
  intro t
  constructor
  · intro p hp
    rw [params] at hp
    obtain ⟨c, hc, rfl⟩ := List.mem_map.1 hp
    rw [List.mem_filter, Bool.and_eq_true] at hc
    exact mean_isSome_of_hasNumeric hc.2.2
  · intro rs hok r hr
    rw [subjectSection] at hok
    split at hok
    · simp at hok
    · split at hok
      · simp at hok
      · injection hok with hmap
        rw [← hmap] at hr
        obtain ⟨c, hc, rfl⟩ := List.mem_map.1 hr
        exact mean_isSome_of_hasNumeric (hasNumeric_of_mem_subject_cols hc)

/-- Claim C10 witness: the single Master Dashboard row of the example
table has a defined average. -/
theorem spec_C10_witness :
    ((("ease of use" : String),
      (listMean (numVals tableC10 "ease of use")).map round2)).2.isSome = true :=
  (spec_C10 tableC10).1 _ (List.mem_singleton_self _)

/-- The coercible values of a column, as a row-wise filterMap. -/
lemma numVals_eq_filterMap (t : Table) (c : String) :
    numVals t c = t.rows.filterMap (fun r => safe_num (readCell t.cols r c)) := by
  rw [numVals, getCol, List.filterMap_map]; rfl

/-- The row-major value pool of the implementation is a permutation of
the column-major pool of the specification. -/
lemma stacked_perm_pooled (t : Table) :
    (stackedRatings t).Perm (pooledRatings t) := by
  rw [← Multiset.coe_eq_coe]
  have h1 : stackedRatings t = t.rows.flatMap
      (fun r => (rating_cols t).flatMap
        (fun c => (safe_num (readCell t.cols r c)).toList)) := by
    rw [stackedRatings]
    simp only [List.filterMap_eq_flatMap_toList]
  have h2 : pooledRatings t = (rating_cols t).flatMap
      (fun c => t.rows.flatMap
        (fun r => (safe_num (readCell t.cols r c)).toList)) := by
    rw [pooledRatings]
    simp only [numVals_eq_filterMap, List.filterMap_eq_flatMap_toList]
  rw [h1, h2]
  simp only [← Multiset.coe_bind]
  exact Multiset.bind_bind _ _

/-- Means are invariant under permutation of the value list. -/
lemma listMean_perm {l₁ l₂ : List ℚ} (h : l₁.Perm l₂) :
    listMean l₁ = listMean l₂ := by
  cases l₁ with
  | nil =>
    have : l₂ = [] := h.symm.eq_nil
    subst this; rfl
  | cons a as =>
    have h2 : l₂ ≠ [] := by
      intro he
      subst he
      exact absurd h.eq_nil (by simp)
    simp [listMean, List.isEmpty_iff, h2, h.sum_eq, h.length_eq]

/-- Example for the overall average: two rows, three pooled values. -/
def tableC3 : Table :=
  ⟨["overall rating", "rate of teaching", "name"],
   [[Cell.num 4, Cell.num 5, Cell.text "p"],
    [Cell.num 3, Cell.missing, Cell.text "q"]]⟩

/-- Claim C3: the overall average equals the arithmetic mean of the pool
of all coercible values of all rating columns, with missing values
excluded from numerator and denominator, and the reported response count
is the row count of the filtered table, not the pool size (the example
has 2 rows but 3 pooled values, and mean 4). -/
theorem spec_C3 :
    (∀ t : Table, overall_avg t = listMean (pooledRatings t)
      ∧ total_responses t = t.rows.length)
    ∧ total_responses tableC3 = 2
    ∧ (pooledRatings tableC3).length = 3
    ∧ overall_avg tableC3 = some 4 := by
  refine ⟨fun t => ⟨listMean_perm (stacked_perm_pooled t), rfl⟩, by decide, by decide, ?_⟩
  have hs : stackedRatings tableC3 = [4, 5, 3] := by decide
  rw [overall_avg, hs, listMean]
  norm_num

/-- Every entry of the file-wise table is the mean of its group. -/
lemma mem_per_file_avg {t : Table} {c k : String} {v : Option ℚ}
    (h : (k, v) ∈ per_file_avg t c) : v = listMean (groupVals t c k) := by
  rw [per_file_avg] at h
  obtain ⟨k2, _, heq⟩ := List.mem_map.1 h
  obtain ⟨h1, h2⟩ := Prod.mk.injEq .. ▸ heq
  rw [← h2, h1]

/-- Example for the per-file average: files with values [3,4,5], [1,2]
and a file whose only value does not coerce. -/
def tableC4 : Table :=
  ⟨["delivery of lecture rating", "source_file"],
   [[Cell.num 3, Cell.text "a.csv"], [Cell.num 4, Cell.text "a.csv"],
    [Cell.num 5, Cell.text "a.csv"],
    [Cell.num 1, Cell.text "b.csv"], [Cell.num 2, Cell.text "b.csv"],
    [Cell.text "n/a", Cell.text "c.csv"]]⟩

/-- Claim C4: grouping by origin and averaging the coerced values of the
designated column yields the arithmetic mean per group (files [3,4,5]
and [1,2] give 4.0 and 1.5), and a group with zero coercible values
yields an undefined mean, never zero. -/
theorem spec_C4 :
    (∀ (t : Table) (c k : String), k ∈ groupKeys t →
      (k, listMean (groupVals t c k)) ∈ per_file_avg t c)
    ∧ (∀ (t : Table) (c k : String) (v : Option ℚ),
        (k, v) ∈ per_file_avg t c → v = listMean (groupVals t c k))
    ∧ (∀ (t : Table) (c k : String) (v : Option ℚ),
        (k, v) ∈ per_file_avg t c → groupVals t c k = [] → v = none)
    ∧ per_file_avg tableC4 "delivery of lecture rating" =
        [("a.csv", some 4), ("b.csv", some (3 / 2)), ("c.csv", none)] := by
  refine ⟨?_, fun t c k v h => mem_per_file_avg h, ?_, ?_⟩
  · intro t c k hk
    rw [per_file_avg]
    exact List.mem_map.2 ⟨k, hk, rfl⟩
  · intro t c k v h hnil
    rw [mem_per_file_avg h, hnil]
    rfl
  · have hk : groupKeys tableC4 = ["a.csv", "b.csv", "c.csv"] := by decide
    have ha : groupVals tableC4 "delivery of lecture rating" "a.csv" = [3, 4, 5] := by decide
    have hb : groupVals tableC4 "delivery of lecture rating" "b.csv" = [1, 2] := by decide
    have hc : groupVals tableC4 "delivery of lecture rating" "c.csv" = [] := by decide
    rw [per_file_avg, hk]
    simp only [List.map_cons, List.map_nil, ha, hb, hc, listMean]
    norm_num

/-- Claim C4 witness: the group of file a.csv appears in the file-wise
table with the mean of its values. -/
theorem spec_C4_witness :
    (("a.csv" : String),
      listMean (groupVals tableC4 "delivery of lecture rating" "a.csv")) ∈
        per_file_avg tableC4 "delivery of lecture rating" :=
  spec_C4.1 tableC4 "delivery of lecture rating" "a.csv" (by decide)

/-- Membership through a descending insertion. -/
lemma mem_insertDesc {x y : String × ℕ} :
    ∀ {l}, y ∈ insertDesc x l ↔ y = x ∨ y ∈ l := by
  intro l
  induction l with
  | nil => simp [insertDesc]
  | cons z zs ih =>
    rw [insertDesc]
    by_cases hlt : z.2 < x.2
    · rw [if_pos hlt]
      simp [List.mem_cons]
    · rw [if_neg hlt]
      simp only [List.mem_cons, ih]
      tauto

/-- Membership through the descending sort. -/
lemma mem_sortDesc {y : String × ℕ} : ∀ {l}, y ∈ sortDesc l ↔ y ∈ l := by
  intro l
  induction l with
  | nil => simp [sortDesc]
  | cons z zs ih =>
    have : sortDesc (z :: zs) = insertDesc z (sortDesc zs) := rfl
    rw [this, mem_insertDesc, List.mem_cons, ih]

/-- Descending insertion preserves the descending order. -/
lemma pairwise_insertDesc {x : String × ℕ} :
    ∀ {l}, List.Pairwise (fun a b : String × ℕ => b.2 ≤ a.2) l →
      List.Pairwise (fun a b : String × ℕ => b.2 ≤ a.2) (insertDesc x l) := by
  intro l
  induction l with
  | nil => intro _; simp [insertDesc]
  | cons z zs ih =>
    intro h
    rw [List.pairwise_cons] at h
    obtain ⟨hz, hzs⟩ := h
    rw [insertDesc]
    by_cases hlt : z.2 < x.2
    · rw [if_pos hlt]
      refine List.Pairwise.cons ?_ (List.Pairwise.cons hz hzs)
      intro w hw
      rcases List.mem_cons.1 hw with rfl | hw2
      · exact le_of_lt hlt
      · exact le_trans (hz w hw2) (le_of_lt hlt)
    · rw [if_neg hlt]
      refine List.Pairwise.cons ?_ (ih hzs)
      intro w hw
      rcases mem_insertDesc.1 hw with rfl | hw2
      · exact Nat.le_of_not_lt hlt
      · exact hz w hw2

/-- The descending sort is sorted by descending count. -/
lemma pairwise_sortDesc :
    ∀ l, List.Pairwise (fun a b : String × ℕ => b.2 ≤ a.2) (sortDesc l) := by
  intro l
  induction l with
  | nil => simp [sortDesc]
  | cons z zs ih => exact pairwise_insertDesc ih

/-- Every row of value_counts pairs a value occurring in the input with
its exact number of occurrences. -/
lemma mem_value_counts {l : List String} {v : String} {n : ℕ}
    (h : (v, n) ∈ value_counts l) : n = l.count v ∧ v ∈ l := by
  rw [value_counts] at h
  have h2 := mem_sortDesc.1 h
  obtain ⟨v2, hv2, heq⟩ := List.mem_map.1 h2
  obtain ⟨h1, h3⟩ := Prod.mk.injEq .. ▸ heq
  subst h1
  exact ⟨h3.symm, List.mem_dedup.1 hv2⟩

/-- Example for the frequency counts: Distance rows with values X,
padded x, bare x, Y, one Online row and one missing value. -/
def tableC6 : Table :=
  ⟨["learner support centre", "mode"],
   [[Cell.text "X", Cell.text "Distance"],
    [Cell.text " x ", Cell.text "Distance"],
    [Cell.text "x", Cell.text "Distance"],
    [Cell.text "Y", Cell.text "Distance"],
    [Cell.text "X", Cell.text "Online"],
    [Cell.missing, Cell.text "Distance"]]⟩

/-- Claim C6: the frequency counts run over the Distance rows of the
designated column only, after dropping missing values and trimming but
preserving case, and the rows are ordered by descending count; on the
example, the Online row is excluded, the missing value is dropped,
padded x merges with x while X stays separate, and the order is by
descending count. -/
theorem spec_C6 :
    (∀ (l : List String) (v : String) (n : ℕ),
      (v, n) ∈ value_counts l → n = l.count v ∧ v ∈ l)
    ∧ (∀ l : List String,
        List.Pairwise (fun a b : String × ℕ => b.2 ≤ a.2) (value_counts l))
    ∧ lscValues tableC6 = ["X", "x", "x", "Y"]
    ∧ value_counts (lscValues tableC6) = [("x", 2), ("Y", 1), ("X", 1)] :=
  ⟨fun _ _ _ h => mem_value_counts h, fun _ => pairwise_sortDesc _, by decide, by decide⟩

/-- Claim C6 witness: the count of x on the example is its number of
occurrences among the trimmed Distance values. -/
theorem spec_C6_witness :
    2 = (lscValues tableC6).count "x" ∧ "x" ∈ lscValues tableC6 :=
  spec_C6.1 (lscValues tableC6) "x" 2 (by decide)

/-- find? returns the first element satisfying the predicate: everything
before it fails the predicate. -/
lemma find?_eq_some_first {α : Type} {p : α → Bool} :
    ∀ {l : List α} {a : α}, l.find? p = some a →
      p a = true ∧ ∃ l1 l2, l = l1 ++ a :: l2 ∧ ∀ b ∈ l1, p b = false := by
  intro l
  induction l with
  | nil => intro a h; simp [List.find?] at h
  | cons x xs ih =>
    intro a h
    by_cases hx : p x
    · rw [List.find?_cons_of_pos _ hx] at h
      obtain rfl : x = a := Option.some.inj h
      exact ⟨hx, [], xs, rfl, by simp⟩
    · rw [List.find?_cons_of_neg _ hx] at h
      obtain ⟨hp, l1, l2, heq, hl1⟩ := ih h
      refine ⟨hp, x :: l1, l2, by rw [heq]; rfl, ?_⟩
      intro b hb
      rcases List.mem_cons.1 hb with rfl | hb2
      · simpa using hx
      · exact hl1 b hb2

/-- Example without any anchor column. -/
def tableC7 : Table := ⟨["alpha", "beta"], [[Cell.num 1, Cell.num 2]]⟩

/-- Claim C7: the anchor is the first column whose name contains
delivery of lecture; with no such column the subject-wise section exits
with the Missing-Anchor error, and with an anchor but an empty detected
block it exits with the Empty-Subject-Block error, producing no rows in
either case. -/
theorem spec_C7 : ∀ t : Table,
    (anchorCol t = none ↔
      ∀ c ∈ t.cols, substrB "delivery of lecture" c = false)
    ∧ (∀ a, anchorCol t = some a →
        substrB "delivery of lecture" a = true ∧
        ∃ l1 l2, t.cols = l1 ++ a :: l2 ∧
          ∀ b ∈ l1, substrB "delivery of lecture" b = false)
    ∧ (anchorCol t = none → subjectSection t = SubjOutcome.missingAnchor)
    ∧ (∀ a, anchorCol t = some a → subject_cols t a = [] →
        subjectSection t = SubjOutcome.emptyBlock) := by
  intro t
  refine ⟨?_, ?_, ?_, ?_⟩
  · simp [anchorCol, List.find?_eq_none]
  · intro a ha
    exact find?_eq_some_first ha
  · intro h
    rw [subjectSection]
    split
    · rfl
    · next sec heq => rw [h] at heq; exact absurd heq (by simp)
  · intro a ha hnil
    rw [subjectSection]
    split
    · next heq => rw [ha] at heq; exact absurd heq (by simp)
    · next sec heq =>
      rw [ha] at heq
      obtain rfl : a = sec := Option.some.inj heq
      rw [hnil]
      rfl

/-- Claim C7 witness: a table with no anchor column makes the
subject-wise section exit with the Missing-Anchor error. -/
theorem spec_C7_witness : subjectSection tableC7 = SubjOutcome.missingAnchor :=
  (spec_C7 tableC7).2.2.1 (by decide)

/-- A label is unresolved exactly when it is not a column. -/
lemma colIdx?_eq_none : ∀ {cols : List String} {c : String},
    colIdx? cols c = none ↔ c ∉ cols := by
  intro cols c
  induction cols with
  | nil => simp [colIdx?]
  | cons d ds ih =>
    rw [colIdx?]
    by_cases hd : d = c
    · simp [hd]
    · simp only [if_neg hd, Option.map_eq_none', ih, List.mem_cons]
      constructor
      · intro h h2
        rcases h2 with h3 | h3
        · exact hd h3.symm
        · exact h h3
      · intro h h2
        exact h (Or.inr h2)

/-- The resolved index of a label points at that label. -/
lemma colIdx?_getElem : ∀ {cols : List String} {c : String} {i : ℕ},
    colIdx? cols c = some i → cols[i]? = some c := by
  intro cols
  induction cols with
  | nil => intro c i h; simp [colIdx?] at h
  | cons d ds ih =>
    intro c i h
    rw [colIdx?] at h
    by_cases hd : d = c
    · rw [if_pos hd] at h
      obtain rfl : (0 : ℕ) = i := Option.some.inj h
      simp [hd]
    · rw [if_neg hd] at h
      obtain ⟨j, hj, rfl⟩ := Option.map_eq_some'.1 h
      simpa using ih hj

/-- A resolved index is within the header. -/
lemma colIdx?_lt {cols : List String} {c : String} {i : ℕ}
    (h : colIdx? cols c = some i) : i < cols.length :=
  (List.getElem?_eq_some.1 (colIdx?_getElem h)).1

/-- Appending a fresh label resolves it at the old length. -/
lemma colIdx?_append_self : ∀ {l : List String} {c : String},
    colIdx? l c = none → colIdx? (l ++ [c]) c = some l.length := by
  intro l
  induction l with
  | nil => intro c _; simp [colIdx?]
  | cons d ds ih =>
    intro c h
    rw [colIdx?] at h
    by_cases hd : d = c
    · rw [if_pos hd] at h; exact absurd h (by simp)
    · rw [if_neg hd] at h
      have h2 : colIdx? ds c = none := Option.map_eq_none'.1 h
      show colIdx? (d :: (ds ++ [c])) c = some (ds.length + 1)
      rw [colIdx?, if_neg hd, ih h2]
      rfl

/-- A column of the header has a resolved index. -/
lemma exists_colIdx? {cols : List String} {c : String} (h : c ∈ cols) :
    ∃ i, colIdx? cols c = some i := by
  cases hi : colIdx? cols c with
  | none => exact absurd (colIdx?_eq_none.1 hi) (by simp [h])
  | some i => exact ⟨i, rfl⟩

/-- Reading a unified column of a reindexed row gives the source cell. -/
lemma readCell_reindexRow {src uc : List String} {row : List Cell} {c : String}
    (h : c ∈ uc) :
    readCell uc (reindexRow src uc row) c = readCell src row c := by
  obtain ⟨i, hi⟩ := exists_colIdx? h
  rw [readCell, hi, reindexRow]
  show (uc.map (fun c => readCell src row c)).getD i Cell.missing = readCell src row c
  rw [List.getD_eq_getElem?_getD, List.getElem?_map, colIdx?_getElem hi]
  rfl

/-- Membership in the running column union. -/
lemma mem_foldl_union : ∀ (ls : List (List String)) (acc : List String) (c : String),
    c ∈ ls.foldl (fun acc cs => acc ++ cs.filter (fun c => decide (c ∉ acc))) acc ↔
      c ∈ acc ∨ ∃ cs ∈ ls, c ∈ cs := by
  intro ls
  induction ls with
  | nil => simp
  | cons cs₀ rest ih =>
    intro acc c
    rw [List.foldl_cons, ih]
    constructor
    · rintro (h | ⟨cs, hcs, hc⟩)
      · rcases List.mem_append.1 h with h2 | h2
        · exact Or.inl h2
        · exact Or.inr ⟨cs₀, by simp, (List.mem_filter.1 h2).1⟩
      · exact Or.inr ⟨cs, by simp [hcs], hc⟩
    · rintro (h | ⟨cs, hcs, hc⟩)
      · exact Or.inl (List.mem_append_left _ h)
      · rcases List.mem_cons.1 hcs with rfl | h2
        · by_cases hin : c ∈ acc
          · exact Or.inl (List.mem_append_left _ hin)
          · exact Or.inl (List.mem_append_right _
              (List.mem_filter.2 ⟨hc, by simpa using hin⟩))
        · exact Or.inr ⟨cs, h2, hc⟩

/-- Membership in the unified header. -/
lemma mem_unionCols {ls : List (List String)} {c : String} :
    c ∈ unionCols ls ↔ ∃ cs ∈ ls, c ∈ cs := by
  rw [unionCols, mem_foldl_union]
  simp

/-- Loading when a source_file column already exists: overwrite. -/
lemma loadOne_eq_overwrite {f : SourceFile} {i : ℕ}
    (hidx : colIdx? (normCols f.header) "source_file" = some i) :
    loadOne f = ⟨normCols f.header,
      f.rows.map (fun r => r.set i (Cell.text f.name))⟩ := by
  rw [loadOne, setCol, hidx]

/-- Loading when no source_file column exists: append it. -/
lemma loadOne_eq_append {f : SourceFile}
    (hidx : colIdx? (normCols f.header) "source_file" = none) :
    loadOne f = ⟨normCols f.header ++ ["source_file"],
      f.rows.map (fun r => r ++ [Cell.text f.name])⟩ := by
  rw [loadOne, setCol, hidx]

/-- Normalisation keeps the number of columns. -/
lemma normCols_length (h : List String) : (normCols h).length = h.length :=
  List.length_map ..

/-- Loading keeps the number of rows. -/
lemma loadOne_rows_length (f : SourceFile) :
    (loadOne f).rows.length = f.rows.length := by
  cases hidx : colIdx? (normCols f.header) "source_file" with
  | none => rw [loadOne_eq_append hidx]; exact List.length_map ..
  | some i => rw [loadOne_eq_overwrite hidx]; exact List.length_map ..

/-- Every column of a loaded table is source_file or a normalised
source header. -/
lemma loadOne_cols_mem {f : SourceFile} {c : String}
    (h : c ∈ (loadOne f).cols) :
    c = "source_file" ∨ ∃ h0 ∈ f.header, c = strLower (strTrim h0) := by
  cases hidx : colIdx? (normCols f.header) "source_file" with
  | some i =>
    rw [loadOne_eq_overwrite hidx] at h
    obtain ⟨h0, hh0, rfl⟩ := List.mem_map.1 h
    exact Or.inr ⟨h0, hh0, rfl⟩
  | none =>
    rw [loadOne_eq_append hidx] at h
    rcases List.mem_append.1 h with h2 | h2
    · obtain ⟨h0, hh0, rfl⟩ := List.mem_map.1 h2
      exact Or.inr ⟨h0, hh0, rfl⟩
    · exact Or.inl (by simpa using h2)

/-- A loaded table always has a source_file column. -/
lemma loadOne_sf_mem (f : SourceFile) : "source_file" ∈ (loadOne f).cols := by
  cases hidx : colIdx? (normCols f.header) "source_file" with
  | some i =>
    rw [loadOne_eq_overwrite hidx]
    exact List.getElem?_mem (colIdx?_getElem hidx)
  | none =>
    rw [loadOne_eq_append hidx]
    simp

/-- In a loaded table every row carries the file name under
source_file, provided the source rows match the header width. -/
lemma loadOne_origin {f : SourceFile}
    (wf : ∀ r ∈ f.rows, r.length = f.header.length) :
    ∀ row ∈ (loadOne f).rows,
      readCell (loadOne f).cols row "source_file" = Cell.text f.name := by
  intro row hrow
  cases hidx : colIdx? (normCols f.header) "source_file" with
  | some i =>
    rw [loadOne_eq_overwrite hidx] at hrow ⊢
    obtain ⟨r, hr, rfl⟩ := List.mem_map.1 hrow
    show readCell (normCols f.header) (r.set i (Cell.text f.name)) "source_file" =
      Cell.text f.name
    rw [readCell, hidx]
    have hlen : i < r.length := by
      rw [wf r hr, ← normCols_length]
      exact colIdx?_lt hidx
    show (r.set i (Cell.text f.name)).getD i Cell.missing = Cell.text f.name
    rw [List.getD_eq_getElem?_getD, List.getElem?_set]
    simp [hlen]
  | none =>
    rw [loadOne_eq_append hidx] at hrow ⊢
    obtain ⟨r, hr, rfl⟩ := List.mem_map.1 hrow
    show readCell (normCols f.header ++ ["source_file"])
      (r ++ [Cell.text f.name]) "source_file" = Cell.text f.name
    rw [readCell, colIdx?_append_self hidx]
    show (r ++ [Cell.text f.name]).getD (normCols f.header).length Cell.missing =
      Cell.text f.name
    have hlen : (normCols f.header).length = r.length := by
      rw [normCols_length, wf r hr]
    rw [List.getD_eq_getElem?_getD, hlen, List.getElem?_concat_length]
    rfl

/-- The unified header of the load. -/
lemma loadData_cols (fs : List SourceFile) :
    (loadData fs).cols = unionCols ((fs.map loadOne).map Table.cols) := rfl

/-- The unified rows of the load: per file, its loaded rows reindexed to
the unified header, concatenated in file order. -/
lemma loadData_rows_eq (fs : List SourceFile) :
    (loadData fs).rows = fs.flatMap (fun f =>
      (loadOne f).rows.map (reindexRow (loadOne f).cols (loadData fs).cols)) := by
  rw [loadData, concatTables]
  show (fs.map loadOne).flatMap _ = _
  rw [List.flatMap_map]

/-- Claim C8: every unified column name is a trimmed and lower-cased
source identifier (or the added source_file tag); the unified rows are
the per-file rows in file order with no deduplication or sorting, so the
total row count is the sum of the per-file counts; and every record
carries its source file name in the source_file column (for sources
whose rows match their header width). -/
theorem spec_C8 : ∀ fs : List SourceFile,
    (∀ c ∈ (loadData fs).cols, c = "source_file" ∨
      ∃ f ∈ fs, ∃ h0 ∈ f.header, c = strLower (strTrim h0))
    ∧ (loadData fs).rows = fs.flatMap (fun f =>
        (loadOne f).rows.map (reindexRow (loadOne f).cols (loadData fs).cols))
    ∧ ((∀ f ∈ fs, ∀ r ∈ f.rows, r.length = f.header.length) →
        ∀ f ∈ fs, ∀ row ∈ (loadOne f).rows,
          readCell (loadData fs).cols
            (reindexRow (loadOne f).cols (loadData fs).cols row)
            "source_file" = Cell.text f.name)
    ∧ (loadData fs).rows.length = (fs.map (fun f => f.rows.length)).sum := by
  intro fs
  refine ⟨?_, loadData_rows_eq fs, ?_, ?_⟩
  · intro c hc
    rw [loadData_cols] at hc
    obtain ⟨cs, hcs, hc2⟩ := mem_unionCols.1 hc
    obtain ⟨tt, htt, rfl⟩ := List.mem_map.1 hcs
    obtain ⟨f, hf, rfl⟩ := List.mem_map.1 htt
    rcases loadOne_cols_mem hc2 with h | ⟨h0, hh0, rfl⟩
    · exact Or.inl h
    · exact Or.inr ⟨f, hf, h0, hh0, rfl⟩
  · intro wf f hf row hrow
    have hsf : "source_file" ∈ (loadData fs).cols := by
      rw [loadData_cols]
      exact mem_unionCols.2 ⟨(loadOne f).cols,
        List.mem_map.2 ⟨loadOne f, List.mem_map.2 ⟨f, hf, rfl⟩, rfl⟩,
        loadOne_sf_mem f⟩
    rw [readCell_reindexRow hsf]
    exact loadOne_origin (wf f hf) row hrow
  · rw [loadData_rows_eq, List.length_flatMap]
    congr 1
    simp [Function.comp_def, loadOne_rows_length]

/-- Example source file for the loader claim. -/
def fileC8 : SourceFile := ⟨"distance.csv", ["Q1"], [[Cell.num 4]]⟩

/-- Claim C8 witness: the loaded record of the example file carries its
file name in the source_file column. -/
theorem spec_C8_witness :
    readCell (loadData [fileC8]).cols
      (reindexRow (loadOne fileC8).cols (loadData [fileC8]).cols
        [Cell.num 4, Cell.text "distance.csv"])
      "source_file" = Cell.text "distance.csv" :=
  (spec_C8 [fileC8]).2.2.1 (by decide) fileC8 (by decide) _ (by decide)

end CDOE
